import Mathlib

/-!
Verification development for the redirect/rewrite engine of the server entry
point (`index.js`): the rule compiler (`getRedirectsMiddleware`), the
per-request redirect matcher (`redirectsMiddleware`) and the sibling
trailing-slash middleware.

The JavaScript code is shallowly embedded: strings are Lean `String`s
manipulated through structurally recursive `List Char` primitives (so that
every definition evaluates inside `decide`/`rfl`), fallible steps return
`Except`/`Option`, and the in-place mutation that the matcher performs on a
rule's destination URL object is made explicit by threading the rule list
through each invocation and returning the updated list.

External collaborators (`new URL` from Node's WHATWG URL implementation and
`path-to-regexp`'s `pathToRegexp`/`compile`) are modelled by executable
functions restricted to the input forms the redirects engine feeds them:
`scheme://host/path?query` URLs, and slash-separated patterns made of literal
segments and `:name` parameters.  Inputs outside that fragment make the model
parsers fail, mirroring the libraries' thrown `TypeError`s.
-/

namespace Redirects

/-- Decidable equality on `Except`, so that concrete runs of the fallible
model functions can be checked by `decide`. -/
instance {ε α : Type} [DecidableEq ε] [DecidableEq α] : DecidableEq (Except ε α) := by
  intro a b
  cases a with
  | ok x =>
    cases b with
    | ok y =>
      exact if h : x = y then isTrue (by rw [h]) else
        isFalse (by intro hc; cases hc; exact h rfl)
    | error y => exact isFalse (by intro hc; cases hc)
  | error x =>
    cases b with
    | ok y => exact isFalse (by intro hc; cases hc)
    | error y =>
      exact if h : x = y then isTrue (by rw [h]) else
        isFalse (by intro hc; cases hc; exact h rfl)

/-! ### String primitives

Structurally recursive models of the JavaScript string operations used by the
server: `split`, `trim`, `includes`, `startsWith`, `slice` and
`replace(/\/+/g, '/')`.  They operate on `String.data` so that the kernel can
evaluate them on concrete and partially concrete inputs. -/

/-- JavaScript `s.split(sep)` for a one-character separator, on char lists.
`""` splits to `[""]`, `","` splits to `["", ""]`, as in JS. -/
def splitListOn (sep : Char) : List Char → List (List Char)
  | [] => [[]]
  | a :: as =>
    match splitListOn sep as with
    | [] => if a = sep then [[], []] else [[a]]
    | g :: gs => if a = sep then [] :: g :: gs else (a :: g) :: gs

/-- JavaScript `s.split(sep)` for a one-character separator. -/
def jsSplit (sep : Char) (s : String) : List String :=
  (splitListOn sep s.data).map String.mk

/-- JavaScript `s.trim()` (restricted to ASCII whitespace). -/
def jsTrim (s : String) : String :=
  String.mk (((s.data.dropWhile Char.isWhitespace).reverse.dropWhile
    Char.isWhitespace).reverse)

/-- JavaScript `s.startsWith(p)`. -/
def jsStartsWith (s p : String) : Bool :=
  p.data.isPrefixOf s.data

/-- Substring occurrence test on char lists. -/
def hasSubstrL (pat : List Char) : List Char → Bool
  | [] => pat.isEmpty
  | a :: as => pat.isPrefixOf (a :: as) || hasSubstrL pat as

/-- JavaScript `s.includes(pat)`. -/
def includesStr (s pat : String) : Bool :=
  hasSubstrL pat.data s.data

/-- Split a char list at the first occurrence of `pat`, returning the part
before the occurrence and the part after it; `none` when `pat` does not
occur. -/
def splitFirstSub (pat : List Char) : List Char → Option (List Char × List Char)
  | [] => if pat.isEmpty then some ([], []) else none
  | a :: as =>
    if pat.isPrefixOf (a :: as) then some ([], (a :: as).drop pat.length)
    else (splitFirstSub pat as).map (fun p => (a :: p.1, p.2))

/-- JavaScript `replace(/\/+/g, '/')`: collapse every run of consecutive
slashes into a single slash. -/
def collapseSlashes : List Char → List Char
  | [] => []
  | [a] => [a]
  | a :: b :: rest =>
    if a = '/' ∧ b = '/' then collapseSlashes (b :: rest)
    else a :: collapseSlashes (b :: rest)

/-- Join a list of strings with `/` between them (inverse of splitting a path
on `/`). -/
def joinSlash : List String → String
  | [] => ""
  | [s] => s
  | s :: rest => s ++ "/" ++ joinSlash rest

/-- Join a list of strings with `&` between them (query-string
serialization). -/
def joinAmp : List String → String
  | [] => ""
  | [s] => s
  | s :: rest => s ++ "&" ++ joinAmp rest

/-! ### `encodeURIComponent`

Model of JavaScript `encodeURIComponent`: unreserved characters are kept,
every other character is percent-encoded byte-wise (UTF-8). -/

/-- Hexadecimal digit (uppercase, as produced by `encodeURIComponent`). -/
def hexDigit (n : Nat) : Char :=
  if n < 10 then Char.ofNat (48 + n) else Char.ofNat (55 + n)

/-- UTF-8 bytes of a code point. -/
def utf8Bytes (n : Nat) : List Nat :=
  if n < 128 then [n]
  else if n < 2048 then [192 + n / 64, 128 + n % 64]
  else if n < 65536 then [224 + n / 4096, 128 + (n / 64) % 64, 128 + n % 64]
  else [240 + n / 262144, 128 + (n / 4096) % 64, 128 + (n / 64) % 64,
    128 + n % 64]

/-- Characters `encodeURIComponent` leaves unescaped. -/
def unreservedURI (c : Char) : Bool :=
  c.isAlphanum || c = '-' || c = '_' || c = '.' || c = '!' || c = '~' ||
    c = '*' || c = Char.ofNat 39 || c = '(' || c = ')'

/-- Percent-encode one byte. -/
def pctByte (b : Nat) : List Char :=
  ['%', hexDigit (b / 16), hexDigit (b % 16)]

/-- Model of JavaScript `encodeURIComponent`. -/
def encodeURIComponent (s : String) : String :=
  String.mk (s.data.flatMap fun c =>
    if unreservedURI c then [c] else (utf8Bytes c.toNat).flatMap pctByte)

/-! ### WHATWG URL model

`new URL(s)` from Node, restricted to the `scheme://host/path?query` shape
that the redirects engine constructs (`https://same_host...` synthesized
destinations, `protocol://host + req.url` request URLs, and absolute `to`
destinations).  Strings without a `://`, with an invalid scheme or with an
empty host are rejected, mirroring the `TypeError: Invalid URL` the real
parser throws on those inputs (e.g. `new URL("//x")`). -/

structure Url where
  protocol : String
  host : String
  pathname : String
  searchParams : List (String × String)
deriving DecidableEq, Repr

/-- Characters that terminate the host portion of a URL. -/
def hostEnd (c : Char) : Bool :=
  c = '/' || c = '?' || c = '#'

/-- Valid URL scheme: a letter followed by letters, digits, `+`, `-`, `.`. -/
def validScheme : List Char → Bool
  | [] => false
  | c :: rest =>
    c.isAlpha && rest.all fun d => d.isAlphanum || d = '+' || d = '-' || d = '.'

/-- Parse an `application/x-www-form-urlencoded` query (without decoding
percent-escapes, which the engine never relies on). -/
def parseQuery (q : List Char) : List (String × String) :=
  ((splitListOn '&' q).filter (fun p => ¬ p.isEmpty)).map fun piece =>
    match splitFirstSub ['='] piece with
    | some kv => (String.mk kv.1, String.mk kv.2)
    | none => (String.mk piece, "")

/-- Model of Node's `new URL(s)` on special-scheme URLs of the shape
`scheme://host/path?query`; `.error` models the thrown `TypeError`. -/
def parseUrl (s : String) : Except String Url :=
  match splitFirstSub [':', '/', '/'] s.data with
  | none => Except.error ("Invalid URL: " ++ s)
  | some pr =>
    if validScheme pr.1 then
      let hostC := pr.2.takeWhile fun c => ¬ hostEnd c
      let rest2 := pr.2.drop hostC.length
      if hostC.isEmpty then Except.error ("Invalid URL: " ++ s)
      else
        let pathC := rest2.takeWhile fun c => ¬ (c = '?' || c = '#')
        let rest3 := rest2.drop pathC.length
        let queryC := match rest3 with
          | '?' :: q => q.takeWhile fun c => ¬ c = '#'
          | _ => []
        Except.ok
          { protocol := String.mk pr.1
            host := String.mk hostC
            pathname := if pathC.isEmpty then "/" else String.mk pathC
            searchParams := parseQuery queryC }
    else Except.error ("Invalid URL: " ++ s)

/-- Model of `url.toString()` for the URLs the engine produces. -/
def Url.toStr (u : Url) : String :=
  u.protocol ++ "://" ++ u.host ++ u.pathname ++
    (match u.searchParams with
     | [] => ""
     | ps => "?" ++ joinAmp (ps.map fun kv => kv.1 ++ "=" ++ kv.2))

/-! ### `path-to-regexp` model

`pathToRegexp(from, keys)` and `compile(pathname, {encode: encodeURIComponent})`
from the `path-to-regexp` package, modelled for patterns made of `/`-separated
segments that are either literals or `:name` parameters.  Segments using the
library's richer syntax (custom regexps in parentheses, modifiers, a `:` not
at the start of a segment, an empty parameter name) make the model parser
fail, standing in for the `TypeError`s the library throws on malformed
patterns such as an unbalanced `(`. -/

/-- One segment of a compiled pattern: a literal or a named parameter. -/
inductive Seg where
  | lit (s : String)
  | param (pname : String)
deriving DecidableEq, Repr

/-- Characters allowed in a `path-to-regexp` parameter name. -/
def wordChar (c : Char) : Bool :=
  c.isAlphanum || c = '_'

/-- Characters outside the modelled pattern fragment. -/
def patternMeta (c : Char) : Bool :=
  c = '(' || c = ')' || c = '{' || c = '}' || c = '*' || c = '+' || c = '?'

/-- Parse one segment of a pattern. -/
def parseSeg (tok : String) : Except String Seg :=
  if tok.data.any patternMeta then Except.error ("bad pattern segment: " ++ tok)
  else
    match tok.data with
    | ':' :: rest =>
      if ¬ rest.isEmpty ∧ rest.all wordChar then Except.ok (Seg.param (String.mk rest))
      else Except.error ("missing parameter name: " ++ tok)
    | other =>
      if other.any (fun c => c = ':') then Except.error ("bad pattern segment: " ++ tok)
      else Except.ok (Seg.lit tok)

/-- Model of `pathToRegexp` / the parse step of `compile`: split the pattern
on `/` and parse each segment. -/
def parsePattern (p : String) : Except String (List Seg) :=
  (jsSplit '/' p).mapM parseSeg

/-- The `keys` array that `pathToRegexp` fills in: the parameter names in
declaration order. -/
def segKeys (segs : List Seg) : List String :=
  segs.filterMap fun s =>
    match s with
    | Seg.param n => some n
    | Seg.lit _ => none

/-- Characters a `path-to-regexp` parameter (`[^\/#\?]+?`) never matches. -/
def paramForbidden (c : Char) : Bool :=
  c = '#' || c = '?'

/-- Segment-wise matching of a compiled pattern against the segments of a
request path; returns the captured parameter values in order. -/
def matchSegs : List Seg → List String → Option (List String)
  | [], [] => some []
  | Seg.lit s :: ss, p :: ps => if p = s then matchSegs ss ps else none
  | Seg.param _ :: ss, p :: ps =>
    if ¬ p.isEmpty ∧ ¬ p.data.any paramForbidden then
      (matchSegs ss ps).map fun vs => p :: vs
    else none
  | _, _ => none

/-- Model of `path.match(regexp)` for a regexp produced by `pathToRegexp`
with its default options (an optional trailing `/` is tolerated). -/
def matchPath (segs : List Seg) (path : String) : Option (List String) :=
  let parts := jsSplit '/' path
  let parts :=
    if parts.length = segs.length + 1 ∧ parts.getLast? = some "" then
      parts.dropLast
    else parts
  matchSegs segs parts

/-- Model of the function returned by `compile(pattern, {encode:
encodeURIComponent})`: re-expand the template with a parameter mapping,
percent-encoding substituted values; a parameter missing from the mapping or
bound to an empty value makes the compiled function throw
(`Expected ... to be defined` / validation failure), modelled as `.error`. -/
def expandSegs (segs : List Seg) (params : List (String × String)) :
    Except String String := do
  let parts ← segs.mapM fun s =>
    match s with
    | Seg.lit l => Except.ok l
    | Seg.param n =>
      match params.lookup n with
      | some v =>
        if v = "" then Except.error ("Expected " ++ n ++ " to be nonempty")
        else Except.ok (encodeURIComponent v)
      | none => Except.error ("Expected " ++ n ++ " to be defined")
  Except.ok (joinSlash parts)

/-! ### The rule compiler (`getRedirectsMiddleware`, lines 85-134)

The compile loop is embedded line by line.  A diagnostic records the line
number exactly as the `console.error` call prints it, together with the
trimmed line content, so that the numbering scheme of each diagnostic site is
part of the model: the missing-`from`/`to` site prints `lineNumber + 1`, the
`catch` site prints `lineNumber` (the 0-based loop index).

Crucially, the `new URL(...)` construction of the destination (lines 117-119)
happens *before* the `try` block, so its failure is modelled as an `.error`
of the whole compiler rather than a diagnostic. -/

/-- A `console.error` diagnostic from the compile loop: the line number as
printed, and the trimmed line content. -/
structure Diag where
  num : Nat
  line : String
deriving DecidableEq, Repr

/-- A compiled redirect rule (one element of the `redirects` array). -/
structure RedirectRule where
  methods : List String
  fromPat : List Seg
  keys : List String
  toPathname : List Seg
  toUrl : Url
deriving DecidableEq, Repr

/-- `possibleMethods` (line 86). -/
def possibleMethods : List String :=
  ["HEAD", "GET", "POST", "PUT", "DELETE", "PATCH", "*"]

/-- Token extraction (lines 96-99): split the line on spaces, trim each
token, drop falsy (empty) tokens. -/
def splitTokens (line : String) : List String :=
  ((jsSplit ' ' line).map jsTrim).filter fun t => t ≠ ""

/-- Destination URL construction (lines 117-119): a `to` containing `//` is
parsed as an absolute URL, otherwise it is synthesized against the
`same_host` sentinel. -/
def parseToUrl (t : String) : Except String Url :=
  if includesStr t "//" then parseUrl t
  else parseUrl ("https://same_host" ++ t)

/-- The body of the `try` block (lines 120-129): compile the `from` pattern
(also yielding its keys) and the destination-path template. -/
def compileRule (methods : List String) (f : String) (toUrl : Url) :
    Except String RedirectRule := do
  let fp ← parsePattern f
  let tp ← parsePattern toUrl.pathname
  Except.ok { methods, fromPat := fp, keys := segKeys fp, toPathname := tp, toUrl }

/-- The compile loop (lines 90-134) over `(index, rawLine)` pairs, returning
the rule list and the emitted diagnostics; `.error` models an exception
escaping the loop (which only the pre-`try` URL construction can raise). -/
def getRedirects : List (Nat × String) → Except String (List RedirectRule × List Diag)
  | [] => Except.ok ([], [])
  | (i, raw) :: rest =>
    let line := jsTrim raw
    if line = "" ∨ jsStartsWith line "#" then getRedirects rest
    else
      match splitTokens line with
      | [] => getRedirects rest
      | one :: more =>
        let splitOne := jsSplit ',' one
        let mft : List String × Option String × Option String :=
          if possibleMethods.any (fun m => splitOne.contains m) then
            (splitOne, more.get? 0, more.get? 1)
          else
            (["*"], some one, more.get? 0)
        match mft.2.1, mft.2.2 with
        | some f, some t =>
          if f = "" ∨ t = "" then
            (getRedirects rest).map fun rd => (rd.1, ⟨i + 1, line⟩ :: rd.2)
          else
            match parseToUrl t with
            | Except.error e => Except.error e
            | Except.ok toUrl =>
              match compileRule mft.1 f toUrl with
              | Except.ok rule =>
                (getRedirects rest).map fun rd => (rule :: rd.1, rd.2)
              | Except.error _ =>
                (getRedirects rest).map fun rd => (rd.1, ⟨i, line⟩ :: rd.2)
        | _, _ =>
          (getRedirects rest).map fun rd => (rd.1, ⟨i + 1, line⟩ :: rd.2)

/-- The whole compiler on the raw text of the `_redirects` resource:
split on newlines (line 89) and run the compile loop. -/
def getRedirectsMiddlewareRules (text : String) :
    Except String (List RedirectRule × List Diag) :=
  getRedirects ((jsSplit '\n' text).enum)

/-! ### The redirect matcher (`redirectsMiddleware`, lines 136-189)

The returned middleware closes over the shared `redirects` array and, on a
match, mutates the matched rule's `toUrl` object in place (lines 168-176
operate on `redirect.toUrl` by reference).  The embedding makes this
explicit: each invocation consumes the rule list and returns the possibly
updated list alongside the outcome and the `console.error` log lines, and an
uncaught exception (which only the `host.includes` call on line 138 can
raise, when both host headers are absent) is an `.error`. -/

/-- An incoming request as the middleware sees it: method, raw URL
(path + query), and the two host headers (absent = `none`). -/
structure Request where
  method : String
  url : String
  xForwardedHost : Option String
  hostHeader : Option String
deriving DecidableEq, Repr

/-- Express's `req.path`: the path portion of `req.url` (before `?`/`#`). -/
def Request.path (r : Request) : String :=
  String.mk (r.url.data.takeWhile fun c => ¬ (c = '?' || c = '#'))

/-- `req.header('X-Forwarded-Host') ?? req.header('host')` (line 137). -/
def resolvedHost (r : Request) : Option String :=
  match r.xForwardedHost with
  | some h => some h
  | none => r.hostHeader

/-- `host.includes('localhost') ? 'http' : 'https'` (line 138). -/
def resolveProtocol (host : String) : String :=
  if includesStr host "localhost" then "http" else "https"

/-- What one middleware invocation produces. -/
inductive Outcome where
  | redirect (status : Nat) (location : String)
  | next
deriving DecidableEq, Repr

/-- `params[redirect.keys[paramIndex].name] = paramValue` (lines 158-167):
pair each captured value with the key at the same index; reading past the
end of `keys` throws (`undefined.name`), modelled as `none`. -/
def buildParams : List String → List String → Option (List (String × String))
  | _, [] => some []
  | k :: ks, v :: vs => (buildParams ks vs).map fun ps => (k, v) :: ps
  | [], _ :: _ => none

/-- The result of evaluating a single rule against a request: the redirect
location when the rule fired, the rule afterwards (its `toUrl` mutated in
place by lines 170-176, possibly only partially when line 176 threw), and
the log lines from the `catch` block. -/
structure RuleResult where
  loc : Option String
  rule : RedirectRule
  logs : List String
deriving DecidableEq, Repr

/-- The in-place mutation of the matched rule's destination URL object
(lines 170-175): overwrite the protocol, replace the `same_host` sentinel
with the request's host, and append every incoming query parameter. -/
def mutateToUrl (protocol : String) (reqUrl : Url) (u : Url) : Url :=
  { protocol := protocol
    host := if u.host = "same_host" then reqUrl.host else u.host
    pathname := u.pathname
    searchParams := u.searchParams ++ reqUrl.searchParams }

/-- One iteration of the rule loop (lines 147-186): method filter, path
match, parameter capture, in-place destination-URL mutation and redirect
construction, with every exception caught and logged.  When the template
re-expansion (line 176) throws, the mutations of lines 170-175 have already
happened and persist on the rule. -/
def tryRule (protocol : String) (reqUrl : Url) (path method : String)
    (r : RedirectRule) : RuleResult :=
  if ¬ r.methods.contains "*" ∧ ¬ r.methods.contains method then
    ⟨none, r, []⟩
  else
    match matchPath r.fromPat path with
    | none => ⟨none, r, []⟩
    | some values =>
      match buildParams r.keys values with
      | none => ⟨none, r, ["Error processing redirects: undefined key"]⟩
      | some params =>
        match expandSegs r.toPathname params with
        | Except.error e =>
          ⟨none, { r with toUrl := mutateToUrl protocol reqUrl r.toUrl },
           ["Error processing redirects: " ++ e]⟩
        | Except.ok p =>
          ⟨some (Url.toStr { mutateToUrl protocol reqUrl r.toUrl with pathname := p }),
           { r with toUrl := { mutateToUrl protocol reqUrl r.toUrl with pathname := p } },
           []⟩

/-- The `for (const redirect of redirects)` loop (lines 147-187): evaluate
rules in order until one fires, threading the in-place mutations through the
rule list and collecting the logs. -/
def processRules (protocol : String) (reqUrl : Url) (path method : String) :
    List RedirectRule → Option String × List RedirectRule × List String
  | [] => (none, [], [])
  | r :: rs =>
    match tryRule protocol reqUrl path method r with
    | ⟨some loc, r2, lg⟩ => (some loc, r2 :: rs, lg)
    | ⟨none, r2, lg⟩ =>
      match processRules protocol reqUrl path method rs with
      | (o, rs2, lg2) => (o, r2 :: rs2, lg ++ lg2)

/-- `redirectsMiddleware` (lines 136-189): resolve the host (throwing when
both headers are absent), pick the protocol, parse the request URL (falling
through to `next()` with a log when that fails), then run the rule loop;
a fired rule yields a 307 redirect, otherwise `next()`. -/
def redirectsMiddleware (redirects : List RedirectRule) (req : Request) :
    Except String (Outcome × List RedirectRule × List String) :=
  match resolvedHost req with
  | none =>
    Except.error "TypeError: Cannot read properties of undefined (reading includes)"
  | some host =>
    match parseUrl (resolveProtocol host ++ "://" ++ host ++ req.url) with
    | Except.error _ =>
      Except.ok (Outcome.next, redirects,
        ["Invalid URL: " ++ (resolveProtocol host ++ "://" ++ host ++ req.url)])
    | Except.ok reqUrl =>
      match processRules (resolveProtocol host) reqUrl req.path req.method redirects with
      | (some loc, rs, logs) => Except.ok (Outcome.redirect 307 loc, rs, logs)
      | (none, rs, logs) => Except.ok (Outcome.next, rs, logs)

/-- A well-formed host-header value: nonempty and free of the characters
that terminate the host portion of a URL (so that
`protocol://host + req.url` parses back to the same host). -/
def hostOk (host : String) : Bool :=
  ¬ host.data.isEmpty && host.data.all fun c => ¬ hostEnd c

/-! ### The trailing-slash middleware (lines 29-37) -/

/-- Last character of a string is `/`. -/
def endsWithSlash (s : String) : Bool :=
  s.data.getLast? = some '/'

/-- The anonymous `app.use` handler on lines 29-37: a path longer than one
character that ends in `/` is 301-redirected to
`req.path.slice(0,-1).replace(/\/+/g,'/')` plus `req.url.slice(req.path.length)`;
every other request passes through. -/
def trailingSlashMiddleware (req : Request) : Outcome :=
  let p := req.path
  if endsWithSlash p ∧ p.data.length > 1 then
    let query := String.mk (req.url.data.drop p.data.length)
    let safepath := String.mk (collapseSlashes p.data.dropLast)
    Outcome.redirect 301 (safepath ++ query)
  else Outcome.next

/-! ### Helper lemmas -/

/-- A string that `startsWith "/"` has `/` as its first character. -/
theorem startsWith_slash {t : String} (h : jsStartsWith t "/" = true) :
    ∃ ts, t.data = '/' :: ts := by
  cases t with
  | mk l =>
    cases l with
    | nil => simp [jsStartsWith, List.isPrefixOf] at h
    | cons c cs =>
      simp [jsStartsWith, List.isPrefixOf] at h
      exact ⟨cs, by rw [h]⟩

/-- `takeWhile` runs through a prefix wholly satisfying the predicate. -/
theorem takeWhile_all_append (p : Char → Bool) (l1 l2 : List Char)
    (h : l1.all p = true) :
    (l1 ++ l2).takeWhile p = l1 ++ l2.takeWhile p := by
  induction l1 with
  | nil => rfl
  | cons a as ih =>
    simp only [List.all_cons, Bool.and_eq_true] at h
    simp [List.takeWhile, h.1, ih h.2]

/-- Splitting at the first `://` when the prefix contains neither `:` nor
`/` (as every URL scheme the engine builds does). -/
theorem splitFirstSub_colon2slash (pre l : List Char)
    (hpre : pre.all (fun c => ¬ (c = ':' ∨ c = '/')) = true) :
    splitFirstSub [':', '/', '/'] (pre ++ ':' :: '/' :: '/' :: l) =
      some (pre, l) := by
  induction pre with
  | nil => simp [splitFirstSub, List.isPrefixOf]
  | cons a as ih =>
    simp only [List.all_cons, Bool.and_eq_true, decide_eq_true_eq] at hpre
    have ha : ¬ (':' : Char) = a := fun hc => hpre.1 (Or.inl hc.symm)
    simp [splitFirstSub, List.isPrefixOf, ha,
      ih (by simpa using hpre.2)]

/-- `collapseSlashes` preserves the first character. -/
theorem collapseSlashes_cons :
    ∀ (l : List Char) (b : Char), ∃ t2, collapseSlashes (b :: l) = b :: t2 := by
  intro l
  induction l with
  | nil => exact fun b => ⟨[], rfl⟩
  | cons c rest ih =>
    intro b
    by_cases h : b = '/' ∧ c = '/'
    · obtain ⟨t2, ht⟩ := ih c
      exact ⟨t2, by rw [collapseSlashes, if_pos h, ht, h.1, h.2]⟩
    · exact ⟨collapseSlashes (c :: rest), by rw [collapseSlashes, if_neg h]⟩

/-- The output of `collapseSlashes` never contains two adjacent slashes. -/
theorem collapseSlashes_no_doubleslash :
    ∀ l : List Char, hasSubstrL ['/', '/'] (collapseSlashes l) = false := by
  intro l
  induction l with
  | nil => rfl
  | cons a rest ih =>
    cases rest with
    | nil =>
      by_cases ha : a = '/' <;>
        simp [collapseSlashes, hasSubstrL, List.isPrefixOf, ha]
    | cons b rest2 =>
      by_cases h : a = '/' ∧ b = '/'
      · rw [collapseSlashes, if_pos h]
        exact ih
      · rw [collapseSlashes, if_neg h]
        obtain ⟨t2, ht⟩ := collapseSlashes_cons rest2 b
        rw [ht] at ih ⊢
        have hab : (['/', '/'].isPrefixOf (a :: b :: t2)) = false := by
          by_cases ha : a = '/'
          · have hb : ¬ ('/' : Char) = b := fun hc => h ⟨ha, hc.symm⟩
            simp [List.isPrefixOf, hb]
          · have ha2 : ¬ ('/' : Char) = a := fun hc => ha hc.symm
            simp [List.isPrefixOf, ha2]
        simp only [hasSubstrL, Bool.or_eq_false_iff] at ih ⊢
        exact ⟨hab, ih⟩

/-- When a rule fires, its whole result is determined: the location is the
serialized mutated destination URL (with the re-expanded pathname), the
rule's `toUrl` is replaced by that mutated URL, and nothing is logged. -/
theorem tryRule_fired (protocol : String) (reqUrl : Url) (path method : String)
    (r : RedirectRule)
    (h : (tryRule protocol reqUrl path method r).loc ≠ none) :
    ∃ p : String,
      tryRule protocol reqUrl path method r =
        ⟨some (Url.toStr { mutateToUrl protocol reqUrl r.toUrl with pathname := p }),
         { r with toUrl := { mutateToUrl protocol reqUrl r.toUrl with pathname := p } },
         []⟩ := by
  have hm : ¬ (¬ r.methods.contains "*" ∧ ¬ r.methods.contains method) := by
    intro hc
    apply h
    unfold tryRule
    rw [if_pos hc]
  cases hmp : matchPath r.fromPat path with
  | none =>
    exfalso
    apply h
    unfold tryRule
    rw [if_neg hm, hmp]
  | some values =>
    cases hbp : buildParams r.keys values with
    | none =>
      exfalso
      apply h
      unfold tryRule
      rw [if_neg hm, hmp]
      simp only [hbp]
    | some params =>
      cases he : expandSegs r.toPathname params with
      | error e =>
        exfalso
        apply h
        unfold tryRule
        rw [if_neg hm, hmp]
        simp only [hbp, he]
      | ok p =>
        refine ⟨p, ?_⟩
        unfold tryRule
        rw [if_neg hm, hmp]
        simp only [hbp, he]

/-- Parsing `protocol://host + req.url` (line 141) for a well-formed host
and a slash-initial request URL recovers exactly the host. -/
theorem parseUrl_proto (proto : String) (hp : proto = "http" ∨ proto = "https")
    (host : String) (hh : hostOk host = true) (url : String) (us : List Char)
    (hu : url.data = '/' :: us) :
    (parseUrl (proto ++ "://" ++ host ++ url)).map (fun u => u.host) =
      Except.ok host := by
  obtain ⟨hd⟩ := host
  obtain ⟨ul⟩ := url
  simp only [String.data] at hu
  subst hu
  have hie : hd.isEmpty = false := by
    cases hd with
    | nil => simp [hostOk] at hh
    | cons a as => rfl
  have hall : (hd.all fun c => ¬ hostEnd c) = true := by
    simp only [hostOk, Bool.and_eq_true] at hh
    exact hh.2
  have hsplit :
      splitFirstSub [':', '/', '/'] (proto.data ++ ':' :: '/' :: '/' :: (hd ++ '/' :: us)) =
        some (proto.data, hd ++ '/' :: us) := by
    apply splitFirstSub_colon2slash
    rcases hp with h | h <;> subst h <;> decide
  have hdata : (proto ++ "://" ++ String.mk hd ++ String.mk ('/' :: us)).data =
      proto.data ++ ':' :: '/' :: '/' :: (hd ++ '/' :: us) := by
    simp [String.data_append]
  have htake : ((hd ++ '/' :: us).takeWhile fun c => ¬ hostEnd c) = hd := by
    rw [takeWhile_all_append _ hd ('/' :: us) hall]
    simp [List.takeWhile, hostEnd]
  have hvs : validScheme proto.data = true := by
    rcases hp with h | h <;> subst h <;> decide
  unfold parseUrl
  rw [hdata, hsplit]
  simp only [htake, List.drop_left, hie, hvs, if_true, Bool.false_eq_true,
    if_false, Except.map]

/-! ### Claim theorems -/

/-- C3 (amended): for every request carrying at least one of the
`X-Forwarded-Host`/`Host` headers the matcher never raises — it returns a
normal outcome (one redirect or pass-through) — and a request URL that fails
to parse is logged and falls through to the pass-through continuation. -/
theorem c3_no_raise_with_host (redirects : List RedirectRule) (req : Request)
    (host : String) (h : resolvedHost req = some host) :
    (∃ out, redirectsMiddleware redirects req = Except.ok out) ∧
    (∀ e : String,
      parseUrl (resolveProtocol host ++ "://" ++ host ++ req.url) =
        Except.error e →
      redirectsMiddleware redirects req =
        Except.ok (Outcome.next, redirects,
          ["Invalid URL: " ++ (resolveProtocol host ++ "://" ++ host ++ req.url)])) := by
  have hred : redirectsMiddleware redirects req =
      (match parseUrl (resolveProtocol host ++ "://" ++ host ++ req.url) with
       | Except.error _ =>
         Except.ok (Outcome.next, redirects,
           ["Invalid URL: " ++ (resolveProtocol host ++ "://" ++ host ++ req.url)])
       | Except.ok reqUrl =>
         match processRules (resolveProtocol host) reqUrl req.path
             req.method redirects with
         | (some loc, rs, logs) => Except.ok (Outcome.redirect 307 loc, rs, logs)
         | (none, rs, logs) => Except.ok (Outcome.next, rs, logs)) := by
    unfold redirectsMiddleware
    rw [h]
  rw [hred]
  constructor
  · cases hp : parseUrl (resolveProtocol host ++ "://" ++ host ++ req.url) with
    | error e => exact ⟨_, rfl⟩
    | ok reqUrl =>
      show ∃ out,
          (match processRules (resolveProtocol host) reqUrl req.path
              req.method redirects with
           | (some loc, rs, logs) => Except.ok (Outcome.redirect 307 loc, rs, logs)
           | (none, rs, logs) => Except.ok (Outcome.next, rs, logs)) =
            Except.ok out
      rcases hpr : processRules (resolveProtocol host) reqUrl req.path
          req.method redirects with ⟨o, rs, logs⟩
      cases o <;> exact ⟨_, rfl⟩
  · intro e hpe
    rw [hpe]

/-- C3 witness: a concrete request with a `Host` header gets a normal
outcome from the matcher. -/
theorem c3_no_raise_with_host_witness :
    ∃ out, redirectsMiddleware [] ⟨"GET", "/a", none, some "example.com"⟩ =
      Except.ok out :=
  (c3_no_raise_with_host [] ⟨"GET", "/a", none, some "example.com"⟩
    "example.com" (by decide)).1

/-- C5: whenever a rule fires on a request, the destination URL's query
string afterwards is the rule's existing query parameters with every query
parameter of the incoming request URL appended after them — existing
destination parameters are preserved and same-named incoming parameters are
appended, not substituted. -/
theorem c5_query_params_appended (protocol : String) (reqUrl : Url)
    (path method : String) (r : RedirectRule) (loc : String)
    (h : (tryRule protocol reqUrl path method r).loc = some loc) :
    (tryRule protocol reqUrl path method r).rule.toUrl.searchParams =
      r.toUrl.searchParams ++ reqUrl.searchParams := by
  obtain ⟨p, key⟩ := tryRule_fired protocol reqUrl path method r
    (by rw [h]; exact fun hc => by cases hc)
  rw [key]
  rfl

/-- C5 witness: a concrete firing rule with a literal destination parameter
`k=v` and incoming parameter `x=1` ends with `[(k,v), (x,1)]`. -/
theorem c5_query_params_appended_witness :
    (tryRule "https" ⟨"https", "example.com", "/a", [("x", "1")]⟩ "/a" "GET"
      ⟨["*"], [Seg.lit "", Seg.lit "a"], [], [Seg.lit "", Seg.lit "b"],
        ⟨"https", "same_host", "/b", [("k", "v")]⟩⟩).rule.toUrl.searchParams =
      [("k", "v")] ++ [("x", "1")] :=
  c5_query_params_appended "https" ⟨"https", "example.com", "/a", [("x", "1")]⟩
    "/a" "GET"
    ⟨["*"], [Seg.lit "", Seg.lit "a"], [], [Seg.lit "", Seg.lit "b"],
      ⟨"https", "same_host", "/b", [("k", "v")]⟩⟩
    "https://example.com/b?k=v&x=1" (by decide)

/-- C6: destination-host and scheme resolution, read over a rule in its
compiled state.  (i) A `to` written as a path only (no `//`, leading `/`)
compiles to a destination URL carrying the `same_host` sentinel;
(ii) when such a rule fires, the mutated destination's host is the parsed
request URL's host and its scheme is the resolved protocol; (iii) a
destination whose host is not the sentinel (an absolute `to`) keeps its
explicit host; (iv) for a well-formed resolved host (X-Forwarded-Host if
present, else Host), the parsed request URL's host is exactly that header
value, and the protocol the middleware passes along is `http` exactly when
the host contains the substring `localhost`, else `https`. -/
theorem c6_host_protocol_resolution :
    (∀ t : String, includesStr t "//" = false → jsStartsWith t "/" = true →
      (parseToUrl t).map (fun u => (u.protocol, u.host)) =
        Except.ok ("https", "same_host")) ∧
    (∀ (protocol : String) (reqUrl : Url) (path method : String)
       (r : RedirectRule) (loc : String),
       r.toUrl.host = "same_host" →
       (tryRule protocol reqUrl path method r).loc = some loc →
       (tryRule protocol reqUrl path method r).rule.toUrl.host = reqUrl.host ∧
       (tryRule protocol reqUrl path method r).rule.toUrl.protocol = protocol) ∧
    (∀ (protocol : String) (reqUrl : Url) (path method : String)
       (r : RedirectRule) (loc : String),
       r.toUrl.host ≠ "same_host" →
       (tryRule protocol reqUrl path method r).loc = some loc →
       (tryRule protocol reqUrl path method r).rule.toUrl.host = r.toUrl.host) ∧
    (∀ (host url : String) (us : List Char),
       hostOk host = true → url.data = '/' :: us →
       (parseUrl (resolveProtocol host ++ "://" ++ host ++ url)).map
         (fun u => u.host) = Except.ok host ∧
       (resolveProtocol host = "http" ↔ includesStr host "localhost" = true)) := by
  refine ⟨?_, ?_, ?_, ?_⟩
  · intro t h1 h2
    obtain ⟨ts, hts⟩ := startsWith_slash h2
    obtain ⟨l⟩ := t
    simp only [String.data] at hts
    subst hts
    unfold parseToUrl
    rw [h1]
    simp only [Bool.false_eq_true, if_false]
    exact rfl
  · intro protocol reqUrl path method r loc hhost hloc
    obtain ⟨p, key⟩ := tryRule_fired protocol reqUrl path method r
      (by rw [hloc]; exact fun hc => by cases hc)
    rw [key]
    constructor
    · show (mutateToUrl protocol reqUrl r.toUrl).host = reqUrl.host
      unfold mutateToUrl
      rw [if_pos hhost]
    · rfl
  · intro protocol reqUrl path method r loc hhost hloc
    obtain ⟨p, key⟩ := tryRule_fired protocol reqUrl path method r
      (by rw [hloc]; exact fun hc => by cases hc)
    rw [key]
    show (mutateToUrl protocol reqUrl r.toUrl).host = r.toUrl.host
    unfold mutateToUrl
    rw [if_neg hhost]
  · intro host url us hh hu
    constructor
    · apply parseUrl_proto (resolveProtocol host) ?_ host hh url us hu
      unfold resolveProtocol
      by_cases h : includesStr host "localhost" = true
      · rw [if_pos h]
        exact Or.inl rfl
      · rw [if_neg h]
        exact Or.inr rfl
    · unfold resolveProtocol
      by_cases h : includesStr host "localhost" = true
      · rw [if_pos h]
        simp [h]
      · rw [if_neg h]
        simp [h]

/-- C7 (amended): rules are evaluated in declaration order and the first
rule whose method set and path match *and whose redirect construction
succeeds* determines the outcome: (i) with every earlier rule not firing,
the loop result is that rule's location, the rules after it are returned
untouched (never evaluated) and only the earlier rules' logs precede it;
(ii) when no rule fires the loop yields no location; (iii) the middleware
turns a fired loop into exactly one 307 redirect, and an empty one into the
pass-through continuation. -/
theorem c7_first_success_wins :
    (∀ (protocol : String) (reqUrl : Url) (path method : String)
       (pre : List RedirectRule) (r : RedirectRule) (post : List RedirectRule)
       (loc : String),
       (∀ q ∈ pre, (tryRule protocol reqUrl path method q).loc = none) →
       (tryRule protocol reqUrl path method r).loc = some loc →
       processRules protocol reqUrl path method (pre ++ r :: post) =
         (some loc,
          (pre.map fun q => (tryRule protocol reqUrl path method q).rule) ++
            (tryRule protocol reqUrl path method r).rule :: post,
          (pre.map fun q => (tryRule protocol reqUrl path method q).logs).flatten ++
            (tryRule protocol reqUrl path method r).logs)) ∧
    (∀ (protocol : String) (reqUrl : Url) (path method : String)
       (rules : List RedirectRule),
       (∀ q ∈ rules, (tryRule protocol reqUrl path method q).loc = none) →
       (processRules protocol reqUrl path method rules).1 = none) ∧
    (∀ (redirects : List RedirectRule) (req : Request) (host : String)
       (reqUrl : Url) (loc : String) (rs : List RedirectRule) (logs : List String),
       resolvedHost req = some host →
       parseUrl (resolveProtocol host ++ "://" ++ host ++ req.url) =
         Except.ok reqUrl →
       (processRules (resolveProtocol host) reqUrl req.path req.method redirects =
           (some loc, rs, logs) →
         redirectsMiddleware redirects req =
           Except.ok (Outcome.redirect 307 loc, rs, logs)) ∧
       (processRules (resolveProtocol host) reqUrl req.path req.method redirects =
           (none, rs, logs) →
         redirectsMiddleware redirects req =
           Except.ok (Outcome.next, rs, logs))) := by
  refine ⟨?_, ?_, ?_⟩
  · intro protocol reqUrl path method pre r post loc
    induction pre with
    | nil =>
      intro _ hloc
      cases hr : tryRule protocol reqUrl path method r with
      | mk o r2 lg =>
        rw [hr] at hloc
        simp only at hloc
        subst hloc
        simp [processRules, hr]
    | cons q qs ih =>
      intro hpre hloc
      have hq : (tryRule protocol reqUrl path method q).loc = none :=
        hpre q (List.mem_cons_self q qs)
      cases hr : tryRule protocol reqUrl path method q with
      | mk o q2 qlg =>
        rw [hr] at hq
        simp only at hq
        subst hq
        have hrest := ih (fun x hx => hpre x (List.mem_cons_of_mem q hx)) hloc
        simp [processRules, hr, hrest]
  · intro protocol reqUrl path method rules
    induction rules with
    | nil => intro _; rfl
    | cons q qs ih =>
      intro hpre
      have hq : (tryRule protocol reqUrl path method q).loc = none :=
        hpre q (List.mem_cons_self q qs)
      cases hr : tryRule protocol reqUrl path method q with
      | mk o q2 qlg =>
        rw [hr] at hq
        simp only at hq
        subst hq
        have hrest := ih fun x hx => hpre x (List.mem_cons_of_mem q hx)
        rcases hpr : processRules protocol reqUrl path method qs with ⟨o2, rs2, lg2⟩
        rw [hpr] at hrest
        simp only at hrest
        subst hrest
        simp [processRules, hr, hpr]
  · intro redirects req host reqUrl loc rs logs h1 h2
    have hred : redirectsMiddleware redirects req =
        (match processRules (resolveProtocol host) reqUrl req.path
            req.method redirects with
         | (some l, rs2, lg2) => Except.ok (Outcome.redirect 307 l, rs2, lg2)
         | (none, rs2, lg2) => Except.ok (Outcome.next, rs2, lg2)) := by
      unfold redirectsMiddleware
      rw [h1]
      show (match parseUrl (resolveProtocol host ++ "://" ++ host ++ req.url) with
            | Except.error _ =>
              Except.ok (Outcome.next, redirects,
                ["Invalid URL: " ++ (resolveProtocol host ++ "://" ++ host ++ req.url)])
            | Except.ok reqUrl =>
              match processRules (resolveProtocol host) reqUrl req.path
                  req.method redirects with
              | (some l, rs2, lg2) => Except.ok (Outcome.redirect 307 l, rs2, lg2)
              | (none, rs2, lg2) => Except.ok (Outcome.next, rs2, lg2)) = _
      rw [h2]
    constructor
    · intro h3
      rw [hred, h3]
    · intro h3
      rw [hred, h3]

/-- C6 witness: the four parts at concrete inputs — `to=/new` compiles to
the sentinel host; a fired sentinel rule adopts `localhost:3000` and `http`;
an absolute rule keeps `other.com`; and the request URL built for host
`localhost:3000` parses back to that host with protocol `http`. -/
theorem c6_host_protocol_resolution_witness :
    (parseToUrl "/new").map (fun u => (u.protocol, u.host)) =
      Except.ok ("https", "same_host") ∧
    ((tryRule "http" ⟨"http", "localhost:3000", "/a", []⟩ "/a" "GET"
        ⟨["*"], [Seg.lit "", Seg.lit "a"], [], [Seg.lit "", Seg.lit "b"],
          ⟨"https", "same_host", "/b", []⟩⟩).rule.toUrl.host = "localhost:3000" ∧
     (tryRule "http" ⟨"http", "localhost:3000", "/a", []⟩ "/a" "GET"
        ⟨["*"], [Seg.lit "", Seg.lit "a"], [], [Seg.lit "", Seg.lit "b"],
          ⟨"https", "same_host", "/b", []⟩⟩).rule.toUrl.protocol = "http") ∧
    (tryRule "https" ⟨"https", "example.com", "/a", []⟩ "/a" "GET"
        ⟨["*"], [Seg.lit "", Seg.lit "a"], [], [Seg.lit "", Seg.lit "b"],
          ⟨"https", "other.com", "/b", []⟩⟩).rule.toUrl.host = "other.com" ∧
    ((parseUrl (resolveProtocol "localhost:3000" ++ "://" ++ "localhost:3000" ++
        "/a")).map (fun u => u.host) = Except.ok "localhost:3000" ∧
     (resolveProtocol "localhost:3000" = "http" ↔
       includesStr "localhost:3000" "localhost" = true)) :=
  ⟨c6_host_protocol_resolution.1 "/new" (by decide) (by decide),
   c6_host_protocol_resolution.2.1 "http" ⟨"http", "localhost:3000", "/a", []⟩
     "/a" "GET"
     ⟨["*"], [Seg.lit "", Seg.lit "a"], [], [Seg.lit "", Seg.lit "b"],
       ⟨"https", "same_host", "/b", []⟩⟩
     "http://localhost:3000/b" (by decide) (by decide),
   c6_host_protocol_resolution.2.2.1 "https" ⟨"https", "example.com", "/a", []⟩
     "/a" "GET"
     ⟨["*"], [Seg.lit "", Seg.lit "a"], [], [Seg.lit "", Seg.lit "b"],
       ⟨"https", "other.com", "/b", []⟩⟩
     "https://other.com/b" (by decide) (by decide),
   c6_host_protocol_resolution.2.2.2 "localhost:3000" "/a" ['a']
     (by decide) (by decide)⟩

/-- C7 witness: with a method-mismatched rule first, the second rule fires
and the third is returned untouched. -/
theorem c7_first_success_wins_witness :
    processRules "https" ⟨"https", "example.com", "/a", []⟩ "/a" "GET"
      [⟨["POST"], [Seg.lit "", Seg.lit "a"], [], [Seg.lit "", Seg.lit "b"],
          ⟨"https", "same_host", "/b", []⟩⟩,
       ⟨["*"], [Seg.lit "", Seg.lit "a"], [], [Seg.lit "", Seg.lit "b"],
          ⟨"https", "same_host", "/b", []⟩⟩,
       ⟨["*"], [Seg.lit "", Seg.lit "c"], [], [Seg.lit "", Seg.lit "d"],
          ⟨"https", "same_host", "/d", []⟩⟩] =
      (some "https://example.com/b",
       [⟨["POST"], [Seg.lit "", Seg.lit "a"], [], [Seg.lit "", Seg.lit "b"],
           ⟨"https", "same_host", "/b", []⟩⟩,
        ⟨["*"], [Seg.lit "", Seg.lit "a"], [], [Seg.lit "", Seg.lit "b"],
           ⟨"https", "example.com", "/b", []⟩⟩,
        ⟨["*"], [Seg.lit "", Seg.lit "c"], [], [Seg.lit "", Seg.lit "d"],
           ⟨"https", "same_host", "/d", []⟩⟩],
       []) :=
  c7_first_success_wins.1 "https" ⟨"https", "example.com", "/a", []⟩ "/a" "GET"
    [⟨["POST"], [Seg.lit "", Seg.lit "a"], [], [Seg.lit "", Seg.lit "b"],
        ⟨"https", "same_host", "/b", []⟩⟩]
    ⟨["*"], [Seg.lit "", Seg.lit "a"], [], [Seg.lit "", Seg.lit "b"],
       ⟨"https", "same_host", "/b", []⟩⟩
    [⟨["*"], [Seg.lit "", Seg.lit "c"], [], [Seg.lit "", Seg.lit "d"],
        ⟨"https", "same_host", "/d", []⟩⟩]
    "https://example.com/b" (by decide) (by decide)


/-- C9 (amended): a request whose path ends in `/` and is longer than one
character is 301-redirected to the path with the trailing slash dropped and
every run of consecutive slashes collapsed to one (the target path contains
no `//`), with the query-string suffix of the raw URL preserved; every other
request passes through unmodified. -/
theorem c9_trailing_slash (req : Request) :
    (endsWithSlash req.path = true ∧ req.path.data.length > 1 →
      trailingSlashMiddleware req =
        Outcome.redirect 301
          (String.mk (collapseSlashes req.path.data.dropLast) ++
            String.mk (req.url.data.drop req.path.data.length)) ∧
      hasSubstrL ['/', '/'] (collapseSlashes req.path.data.dropLast) = false) ∧
    (¬ (endsWithSlash req.path = true ∧ req.path.data.length > 1) →
      trailingSlashMiddleware req = Outcome.next) := by
  constructor
  · intro hc
    constructor
    · unfold trailingSlashMiddleware
      rw [if_pos hc]
    · exact collapseSlashes_no_doubleslash _
  · intro hc
    unfold trailingSlashMiddleware
    rw [if_neg hc]

/-- C9 witness: the concrete path `/a//b/` with query `?q=1` redirects to
`/a/b?q=1`. -/
theorem c9_trailing_slash_witness :
    trailingSlashMiddleware ⟨"GET", "/a//b/?q=1", none, some "example.com"⟩ =
      Outcome.redirect 301 "/a/b?q=1" :=
  ((c9_trailing_slash ⟨"GET", "/a//b/?q=1", none, some "example.com"⟩).1
    (by decide)).1

/-- C1: the claim says the shared compiled rule objects are never mutated by
request handling.  The code violates it: `redirectsMiddleware` assigns into
`redirect.toUrl` by reference (lines 168-176), so handling one matching
request permanently changes the shared rule's destination URL — its
protocol, host and query parameters no longer equal their state at the end
of compilation, and a second request's redirect carries the first request's
query parameter (`x=1` leaks into the `?y=2` request's destination). -/
theorem c1_shared_rule_mutated :
    getRedirectsMiddlewareRules "/a /b" =
      Except.ok ([⟨["*"], [Seg.lit "", Seg.lit "a"], [], [Seg.lit "", Seg.lit "b"],
        ⟨"https", "same_host", "/b", []⟩⟩], []) ∧
    redirectsMiddleware
        [⟨["*"], [Seg.lit "", Seg.lit "a"], [], [Seg.lit "", Seg.lit "b"],
          ⟨"https", "same_host", "/b", []⟩⟩]
        ⟨"GET", "/a?x=1", none, some "example.com"⟩ =
      Except.ok (Outcome.redirect 307 "https://example.com/b?x=1",
        [⟨["*"], [Seg.lit "", Seg.lit "a"], [], [Seg.lit "", Seg.lit "b"],
          ⟨"https", "example.com", "/b", [("x", "1")]⟩⟩], []) ∧
    (⟨"https", "example.com", "/b", [("x", "1")]⟩ : Url) ≠
      ⟨"https", "same_host", "/b", []⟩ ∧
    redirectsMiddleware
        [⟨["*"], [Seg.lit "", Seg.lit "a"], [], [Seg.lit "", Seg.lit "b"],
          ⟨"https", "example.com", "/b", [("x", "1")]⟩⟩]
        ⟨"GET", "/a?y=2", none, some "example.com"⟩ =
      Except.ok (Outcome.redirect 307 "https://example.com/b?x=1&y=2",
        [⟨["*"], [Seg.lit "", Seg.lit "a"], [], [Seg.lit "", Seg.lit "b"],
          ⟨"https", "example.com", "/b", [("x", "1"), ("y", "2")]⟩⟩], []) := by
  refine ⟨by decide, by decide, by decide, by decide⟩

/-- C2: the claim says the rule compiler never raises to its caller, in
particular that a `to` value that fails to parse as a URL only discards that
line.  The code violates it: the `new URL(...)` construction (lines 117-119)
happens *before* the `try` block, so a `to` containing `//` that is not a
valid absolute URL (here `//x`, on which `new URL` throws `Invalid URL`)
aborts the whole compilation — the valid second line is never compiled. -/
theorem c2_url_parse_uncaught :
    includesStr "//x" "//" = true ∧
    getRedirectsMiddlewareRules "/from //x\n/good /fine" =
      Except.error "Invalid URL: //x" := by
  refine ⟨by decide, by decide⟩

/-- C3 counterexample: the claim quantifies over any combination of present
or absent `X-Forwarded-Host` and `Host` headers, but when both are absent
`host` is `undefined` and `host.includes('localhost')` (line 138) throws
before the `try`/`catch`-protected region — the matcher raises to the
framework layer instead of redirecting or passing through. -/
theorem c3_counterexample :
    redirectsMiddleware [] ⟨"GET", "/a", none, none⟩ =
      Except.error
        "TypeError: Cannot read properties of undefined (reading includes)" := by
  decide

/-- C4: the claim says every compile-loop diagnostic identifies the 1-based
line number of the offending line.  The missing-`from`/`to` diagnostic does
(line 112 prints `lineNumber + 1`), but the `catch` diagnostic prints the
raw 0-based loop index (line 132 prints `lineNumber`): a pattern-compile
failure on the first line of the resource (here `/(`, on which
`pathToRegexp` throws) is reported as line `0`, not line `1`. -/
theorem c4_zero_based_diagnostic :
    getRedirectsMiddlewareRules "/( /x" =
      Except.ok ([], [⟨0, "/( /x"⟩]) ∧
    (Diag.mk 0 "/( /x").num ≠ 1 := by
  refine ⟨by decide, by decide⟩

/-- C7 counterexample: the claim says evaluation stops at the first rule
whose method set and path both match, and no later rule is evaluated.  But
when the matched rule's destination template throws during re-expansion
(here `/new/:id` with no `:id` capture in `from=/a`), the `catch` block
(lines 179-186) logs and *continues*: the first rule's method set and path
both match the request, yet the emitted redirect is the second rule's
destination `/b`. -/
theorem c7_counterexample :
    getRedirectsMiddlewareRules "/a /new/:id\n/a /b" =
      Except.ok
        ([⟨["*"], [Seg.lit "", Seg.lit "a"], [],
            [Seg.lit "", Seg.lit "new", Seg.param "id"],
            ⟨"https", "same_host", "/new/:id", []⟩⟩,
          ⟨["*"], [Seg.lit "", Seg.lit "a"], [], [Seg.lit "", Seg.lit "b"],
            ⟨"https", "same_host", "/b", []⟩⟩], []) ∧
    List.contains ["*"] "*" = true ∧
    (matchPath [Seg.lit "", Seg.lit "a"]
      (Request.path ⟨"GET", "/a", none, some "example.com"⟩)).isSome = true ∧
    (redirectsMiddleware
        [⟨["*"], [Seg.lit "", Seg.lit "a"], [],
            [Seg.lit "", Seg.lit "new", Seg.param "id"],
            ⟨"https", "same_host", "/new/:id", []⟩⟩,
          ⟨["*"], [Seg.lit "", Seg.lit "a"], [], [Seg.lit "", Seg.lit "b"],
            ⟨"https", "same_host", "/b", []⟩⟩]
        ⟨"GET", "/a", none, some "example.com"⟩).map (fun out => out.1) =
      Except.ok (Outcome.redirect 307 "https://example.com/b") := by
  refine ⟨by decide, by decide, by decide, by decide⟩

/-- C8: for the rule `from=/old/:id to=/new/:id`, a request to `/old/42`
redirects (307) to `/new/42` on the request's host: the captured value `42`
is bound to the captured key `id` (the rule's `keys` list records the
parameter names in declaration order) and the destination template is
re-expanded by that name. -/
theorem c8_param_substitution :
    getRedirectsMiddlewareRules "/old/:id /new/:id" =
      Except.ok ([⟨["*"], [Seg.lit "", Seg.lit "old", Seg.param "id"], ["id"],
        [Seg.lit "", Seg.lit "new", Seg.param "id"],
        ⟨"https", "same_host", "/new/:id", []⟩⟩], []) ∧
    (redirectsMiddleware
        [⟨["*"], [Seg.lit "", Seg.lit "old", Seg.param "id"], ["id"],
          [Seg.lit "", Seg.lit "new", Seg.param "id"],
          ⟨"https", "same_host", "/new/:id", []⟩⟩]
        ⟨"GET", "/old/42", none, some "example.com"⟩).map (fun out => out.1) =
      Except.ok (Outcome.redirect 307 "https://example.com/new/42") := by
  refine ⟨by decide, by decide⟩

/-- C10: method-token recognition is a case-sensitive exact comparison
against `{HEAD, GET, POST, PUT, DELETE, PATCH, *}` (line 101): lowercase
`get` is not recognized, so the line `get /x` compiles with `methods = ["*"]`
and the token `get` itself as the `from` pattern; and `GET,FOO /a /b` keeps
every comma-separated token of the first token — including the unrecognized
`FOO` — verbatim in the rule's method set. -/
theorem c10_method_tokens :
    getRedirectsMiddlewareRules "get /x\nGET,FOO /a /b" =
      Except.ok
        ([⟨["*"], [Seg.lit "get"], [], [Seg.lit "", Seg.lit "x"],
            ⟨"https", "same_host", "/x", []⟩⟩,
          ⟨["GET", "FOO"], [Seg.lit "", Seg.lit "a"], [],
            [Seg.lit "", Seg.lit "b"], ⟨"https", "same_host", "/b", []⟩⟩], []) ∧
    possibleMethods.contains "get" = false ∧
    possibleMethods.contains "GET" = true := by
  refine ⟨by decide, by decide, by decide⟩

/-- C9 counterexample: the claim says the trailing-slash middleware
redirects to the path with a single trailing slash stripped and the path
otherwise unchanged.  But the handler also runs
`.replace(/\/+/g, '/')` (line 32): for the path `/a//b/` the redirect
target is `/a/b`, not the claimed `/a//b`. -/
theorem c9_counterexample :
    trailingSlashMiddleware ⟨"GET", "/a//b/", none, some "example.com"⟩ =
      Outcome.redirect 301 "/a/b" ∧
    ("/a/b" : String) ≠ "/a//b" := by
  refine ⟨by decide, by decide⟩

end Redirects
